import Mathlib

/-!
Verification of the libctf type-container specification against the source
in `libctf/ctf-impl.h` (richlowe/binutils-gdb).

The identifier-namespace macros, the alignment macros and the declaration
precedence enum are shallowly embedded directly from the header.  The
operations whose definitions live in the (absent) `.c` files — the Dynamic
Overlay, commit, rollback, name lookup and the Declaration Renderer — are
modelled from the specification text, as noted in their doc comments.
Machine integers are modelled as `Nat`, with widths made explicit (`% 2 ^ w`)
where the C macros depend on fixed-width wraparound.
-/

namespace Ctf

/-! ## Identifier Namespace (from `ctf-impl.h` lines 259-263) -/

/-- `LCTF_TYPE_ISPARENT(fp, id)`: `(id) <= fp->ctf_parmax`. -/
def LCTF_TYPE_ISPARENT (parmax id : Nat) : Bool :=
  id ≤ parmax

/-- `LCTF_TYPE_ISCHILD(fp, id)`: `(id) > fp->ctf_parmax`. -/
def LCTF_TYPE_ISCHILD (parmax id : Nat) : Bool :=
  parmax < id

/-- `LCTF_TYPE_TO_INDEX(fp, id)`: `(id) & (fp->ctf_parmax)`. -/
def LCTF_TYPE_TO_INDEX (parmax id : Nat) : Nat :=
  id &&& parmax

/-- `LCTF_INDEX_TO_TYPE(fp, id, child)`:
    `(child ? ((id) | (fp->ctf_parmax+1)) : (id))`. -/
def LCTF_INDEX_TO_TYPE (parmax idx : Nat) (child : Bool) : Nat :=
  if child then idx ||| (parmax + 1) else idx

/-- Setting the high bit of a number that occupies exactly the bits below it:
    if `2^k ≤ x < 2^(k+1)` then `(x % 2^k) ||| 2^k = x`. -/
theorem lor_mod_two_pow_high (k x : Nat) (h1 : 2 ^ k ≤ x) (h2 : x < 2 ^ (k + 1)) :
    (x % 2 ^ k) ||| 2 ^ k = x := by
  apply Nat.eq_of_testBit_eq
  intro i
  rcases Nat.lt_trichotomy i k with hik | hik | hik
  · simp [Nat.testBit_lor, Nat.testBit_mod_two_pow, hik,
      Nat.testBit_two_pow_of_ne (Nat.ne_of_gt hik)]
  · subst hik
    have hdiv : x / 2 ^ i = 1 := by
      apply Nat.div_eq_of_lt_le
      · simpa using h1
      · calc x < 2 ^ (i + 1) := h2
          _ = (1 + 1) * 2 ^ i := by ring
    have hxb : Nat.testBit x i = true := by
      simp [Nat.testBit_to_div_mod, hdiv]
    rw [Nat.testBit_lor, hxb]
    simp [Nat.testBit_mod_two_pow, Nat.testBit_two_pow]
  · have hx : Nat.testBit x i = false :=
      Nat.testBit_lt_two_pow
        (lt_of_lt_of_le h2 (Nat.pow_le_pow_right (by norm_num) hik))
    simp [Nat.testBit_lor, Nat.testBit_mod_two_pow, hx,
      Nat.testBit_two_pow_of_ne (Nat.ne_of_lt hik), Nat.not_lt_of_gt hik]

/-- C1: identifier-namespace round-trip.  When the parent boundary `b`
    satisfies `b + 1 = 2 ^ k` (as the spec requires of the boundary) and `x`
    is an id assignable in the container (its local index fits below the
    mask, i.e. `x ≤ 2*b + 1`), re-encoding the decoded id is the identity:
    `LCTF_INDEX_TO_TYPE (LCTF_TYPE_TO_INDEX x) (LCTF_TYPE_ISCHILD x) = x`. -/
theorem lctf_namespace_round_trip (k b x : Nat) (hb : b + 1 = 2 ^ k)
    (hx : x ≤ 2 * b + 1) :
    LCTF_INDEX_TO_TYPE b (LCTF_TYPE_TO_INDEX b x) (LCTF_TYPE_ISCHILD b x) = x := by
  have hbk : b = 2 ^ k - 1 := by omega
  by_cases hc : b < x
  · have hchild : LCTF_TYPE_ISCHILD b x = true := by
      simp [LCTF_TYPE_ISCHILD, hc]
    rw [LCTF_INDEX_TO_TYPE, hchild, if_pos rfl, LCTF_TYPE_TO_INDEX, hbk,
      Nat.and_pow_two_sub_one_eq_mod, ← hbk, hb]
    apply lor_mod_two_pow_high
    · omega
    · have : 2 ^ (k + 1) = 2 * 2 ^ k := by ring
      omega
  · have hchild : LCTF_TYPE_ISCHILD b x = false := by
      simp [LCTF_TYPE_ISCHILD]; omega
    rw [LCTF_INDEX_TO_TYPE, hchild, if_neg (by simp), LCTF_TYPE_TO_INDEX, hbk]
    apply Nat.and_pow_two_sub_one_of_lt_two_pow
    omega

/-- C1 witness: with boundary `b = 7` (so `b+1 = 2^3`) the child id `12`
    round-trips through decode/encode. -/
theorem lctf_namespace_round_trip_witness :
    LCTF_INDEX_TO_TYPE 7 (LCTF_TYPE_TO_INDEX 7 12) (LCTF_TYPE_ISCHILD 7 12) = 12 :=
  lctf_namespace_round_trip 3 7 12 (by decide) (by decide)

/-- C6: parent/child namespace disjointness.  With `b + 1 = 2 ^ k` and local
    indices `i, j ≤ b`, every child-encoded id exceeds `b`, every
    parent-encoded id is at most `b`, and the two encodings never collide. -/
theorem lctf_parent_child_disjoint (k b i j : Nat) (hb : b + 1 = 2 ^ k)
    (hi : i ≤ b) (hj : j ≤ b) :
    b < LCTF_INDEX_TO_TYPE b i true ∧ LCTF_INDEX_TO_TYPE b j false ≤ b ∧
      LCTF_INDEX_TO_TYPE b i true ≠ LCTF_INDEX_TO_TYPE b j false := by
  have hparent : LCTF_INDEX_TO_TYPE b j false = j := by
    simp [LCTF_INDEX_TO_TYPE]
  have hchild : b + 1 ≤ LCTF_INDEX_TO_TYPE b i true := by
    have hbit : Nat.testBit (i ||| (b + 1)) k = true := by
      simp [Nat.testBit_lor, hb, Nat.testBit_two_pow]
    have := Nat.testBit_implies_ge hbit
    simpa [LCTF_INDEX_TO_TYPE, hb] using this
  refine ⟨by omega, by omega, ?_⟩
  omega

/-- C6 witness: boundary 7, indices 5 and 3. -/
theorem lctf_parent_child_disjoint_witness :
    7 < LCTF_INDEX_TO_TYPE 7 5 true ∧ LCTF_INDEX_TO_TYPE 7 3 false ≤ 7 ∧
      LCTF_INDEX_TO_TYPE 7 5 true ≠ LCTF_INDEX_TO_TYPE 7 3 false :=
  lctf_parent_child_disjoint 3 7 5 3 (by decide) (by decide) (by decide)

/-- C5 counterexample: with `parmax = 0` (the spec's no-parent setting) the
    mask decode `LCTF_TYPE_TO_INDEX 0` collapses the assigned ids 2 and 3 to
    the same index 0, and re-encoding the decoded id 2 does not recover 2 —
    the local decode does lose information when `parmax = 0`. -/
theorem lctf_no_parent_decode_loses_information :
    LCTF_TYPE_TO_INDEX 0 2 = 0 ∧ LCTF_TYPE_TO_INDEX 0 3 = 0 ∧
      LCTF_INDEX_TO_TYPE 0 (LCTF_TYPE_TO_INDEX 0 2) (LCTF_TYPE_ISCHILD 0 2) ≠ 2 := by
  decide

/-- C5 amended: with no parent attached (`parmax = 0`), every assigned id
    (`1 ≤ id`) is indeed local in the sense that `LCTF_TYPE_ISPARENT` is
    false for it; but `LCTF_TYPE_TO_INDEX 0 id = 0` for every id, so the
    decode collapses all ids to index 0 and the decode/encode round trip
    holds only for id 1. -/
theorem lctf_no_parent_ids_local (id : Nat) (h : 1 ≤ id) :
    LCTF_TYPE_ISPARENT 0 id = false ∧ LCTF_TYPE_TO_INDEX 0 id = 0 ∧
      (LCTF_INDEX_TO_TYPE 0 (LCTF_TYPE_TO_INDEX 0 id) (LCTF_TYPE_ISCHILD 0 id) = id
        ↔ id = 1) := by
  have hchild : LCTF_TYPE_ISCHILD 0 id = true := by
    simp [LCTF_TYPE_ISCHILD]; omega
  have hidx : LCTF_TYPE_TO_INDEX 0 id = 0 := by
    simp [LCTF_TYPE_TO_INDEX]
  refine ⟨?_, hidx, ?_⟩
  · simp [LCTF_TYPE_ISPARENT]; omega
  · rw [hidx, hchild, LCTF_INDEX_TO_TYPE, if_pos rfl]
    constructor
    · intro h1
      simpa using h1.symm
    · intro h1
      simp [h1]

/-- C5 witness: instantiated at the assigned id 2. -/
theorem lctf_no_parent_ids_local_witness :
    LCTF_TYPE_ISPARENT 0 2 = false ∧ LCTF_TYPE_TO_INDEX 0 2 = 0 ∧
      (LCTF_INDEX_TO_TYPE 0 (LCTF_TYPE_TO_INDEX 0 2) (LCTF_TYPE_ISCHILD 0 2) = 2
        ↔ 2 = 1) :=
  lctf_no_parent_ids_local 2 (by decide)

/-! ## Alignment macros (from `ctf-impl.h` lines 251-257)

The C macros work on fixed-width unsigned integers; the width `w` is made
explicit and all arithmetic is taken modulo `2 ^ w`. -/

/-- Two's-complement negation at width `w`: C's unary `-y` on a `w`-bit
    unsigned value. -/
def wneg (w y : Nat) : Nat :=
  (2 ^ w - y % 2 ^ w) % 2 ^ w

/-- Bitwise complement within `w` bits: C's `~y` on a `w`-bit unsigned
    value, i.e. XOR with the all-ones mask. -/
def wnot (w y : Nat) : Nat :=
  (2 ^ w - 1) ^^^ (y % 2 ^ w)

/-- `P2ROUNDUP(x, align)`: `(-(-(x) & -(align)))` at width `w` bits. -/
def P2ROUNDUP (w x align : Nat) : Nat :=
  wneg w (wneg w x &&& wneg w align)

/-- `LCTF_ALIGN_OFFS(offs, align)`: `((offs + (align - 1)) & ~(align - 1))`
    at width `w` bits. -/
def LCTF_ALIGN_OFFS (w offs align : Nat) : Nat :=
  ((offs + (align - 1)) % 2 ^ w) &&& wnot w (align - 1)

/-- The bits of the mask `2 ^ w - 2 ^ s`: set exactly at positions
    `s ≤ i < w`. -/
theorem testBit_two_pow_sub_two_pow (w s i : Nat) (hs : s ≤ w) :
    Nat.testBit (2 ^ w - 2 ^ s) i = (decide (s ≤ i) && decide (i < w)) := by
  have hmask : 2 ^ w - 2 ^ s = (2 ^ (w - s) - 1) <<< s := by
    rw [Nat.shiftLeft_eq, Nat.mul_sub_right_distrib, ← Nat.pow_add, Nat.one_mul]
    congr 2
    omega
  rw [hmask, Nat.testBit_shiftLeft, Nat.testBit_two_pow_sub_one]
  by_cases h : s ≤ i
  · have hiff : (i - s < w - s) ↔ (i < w) := by omega
    simp [ge_iff_le, h, hiff]
  · simp [ge_iff_le, h]

/-- Masking with the high mask `2 ^ w - 2 ^ s` clears the low `s` bits:
    for `y < 2 ^ w`, `y &&& (2^w - 2^s) = 2^s * (y / 2^s)`. -/
theorem land_two_pow_sub_two_pow (w s y : Nat) (hs : s ≤ w) (hy : y < 2 ^ w) :
    y &&& (2 ^ w - 2 ^ s) = 2 ^ s * (y / 2 ^ s) := by
  have hr : 2 ^ s * (y / 2 ^ s) = (y >>> s) <<< s := by
    rw [Nat.shiftRight_eq_div_pow, Nat.shiftLeft_eq, Nat.mul_comm]
  rw [hr]
  apply Nat.eq_of_testBit_eq
  intro i
  rw [Nat.testBit_land, testBit_two_pow_sub_two_pow w s i hs, Nat.testBit_shiftLeft,
    Nat.testBit_shiftRight]
  by_cases h1 : s ≤ i
  · have hadd : s + (i - s) = i := by omega
    rw [hadd]
    by_cases h2 : i < w
    · simp [h1, h2]
    · have hy2 : Nat.testBit y i = false :=
        Nat.testBit_lt_two_pow
          (lt_of_lt_of_le hy (Nat.pow_le_pow_right (by norm_num) (by omega)))
      simp [h1, h2, hy2]
  · simp [h1]

/-- Width-`w` negation of a power of two `2 ^ s` with `s ≤ w` is the high
    mask `2 ^ w - 2 ^ s`. -/
theorem wneg_two_pow (w s : Nat) (hs : s ≤ w) : wneg w (2 ^ s) = 2 ^ w - 2 ^ s := by
  rw [wneg]
  by_cases h : s = w
  · subst h
    simp [Nat.mod_self]
  · have h1 : 2 ^ s < 2 ^ w := Nat.pow_lt_pow_right (by norm_num) (by omega)
    rw [Nat.mod_eq_of_lt h1,
      Nat.mod_eq_of_lt (Nat.sub_lt (Nat.two_pow_pos w) (Nat.two_pow_pos s))]

/-- Width-`w` complement of the low mask `2 ^ s - 1` with `s ≤ w` is the
    high mask `2 ^ w - 2 ^ s`. -/
theorem wnot_two_pow_sub_one (w s : Nat) (hs : s ≤ w) :
    wnot w (2 ^ s - 1) = 2 ^ w - 2 ^ s := by
  have hle : 2 ^ s ≤ 2 ^ w := Nat.pow_le_pow_right (by norm_num) hs
  have hpos : 0 < 2 ^ s := Nat.two_pow_pos s
  have hlt : 2 ^ s - 1 < 2 ^ w := by omega
  rw [wnot, Nat.mod_eq_of_lt hlt]
  apply Nat.eq_of_testBit_eq
  intro i
  rw [Nat.testBit_xor, Nat.testBit_two_pow_sub_one, Nat.testBit_two_pow_sub_one,
    testBit_two_pow_sub_two_pow w s i hs]
  by_cases h1 : i < s
  · simp [h1, (by omega : i < w), (by omega : ¬ s ≤ i)]
  · by_cases h2 : i < w
    · simp [h1, h2, (by omega : s ≤ i)]
    · simp [h1, h2]

/-- Ceiling-division bookkeeping: for `0 < x1 < m * K`, the ceiling quotient
    `q = (x1 + m - 1) / m` satisfies `1 ≤ q ≤ K` and
    `(m * K - x1) / m = K - q`. -/
theorem ceil_div_facts (m K x1 : Nat) (hm : 0 < m) (h0 : 0 < x1) (hx : x1 < m * K) :
    (x1 + m - 1) / m ≤ K ∧ 1 ≤ (x1 + m - 1) / m ∧
      (m * K - x1) / m = K - (x1 + m - 1) / m := by
  obtain ⟨q, hq⟩ : ∃ q, (x1 + m - 1) / m = q := ⟨_, rfl⟩
  obtain ⟨r, hr2⟩ : ∃ r, (x1 + m - 1) % m = r := ⟨_, rfl⟩
  have hqm := Nat.div_add_mod (x1 + m - 1) m
  rw [hq, hr2] at hqm
  have hrlt : r < m := by
    rw [← hr2]
    exact Nat.mod_lt _ hm
  rw [hq]
  have hx1le : x1 ≤ m * q := by omega
  have hqlt : m * q < x1 + m := by omega
  have hq1 : 1 ≤ q := by
    rcases Nat.eq_zero_or_pos q with h | h
    · rw [h, Nat.mul_zero] at hx1le
      omega
    · exact h
  have hqK : q ≤ K := by
    have h1 : m * q < m * (K + 1) := by
      have h2 : m * (K + 1) = m * K + m := by ring
      omega
    exact Nat.le_of_lt_succ (Nat.lt_of_mul_lt_mul_left h1)
  refine ⟨hqK, hq1, ?_⟩
  have hmq : m * (K - q) = m * K - m * q := Nat.mul_sub_left_distrib m K q
  have hmqK : m * q ≤ m * K := Nat.mul_le_mul_left m hqK
  have hsplit : m * K - x1 = (m - 1 - r) + m * (K - q) := by omega
  rw [hsplit, Nat.add_mul_div_left _ _ hm,
    Nat.div_eq_of_lt (by omega : m - 1 - r < m), Nat.zero_add]

/-- C10: with `w`-bit arithmetic and an alignment that is a power of two
    `2 ^ s` (`s ≤ w`), `P2ROUNDUP` and `LCTF_ALIGN_OFFS` compute the same
    value; and when `x + align - 1` does not overflow, that value is the
    least multiple of the alignment that is `≥ x` (it is divisible by the
    alignment, at least `x`, and below `x + align`). -/
theorem p2roundup_align_offs_agree (w s x : Nat) (hs : s ≤ w) :
    P2ROUNDUP w x (2 ^ s) = LCTF_ALIGN_OFFS w x (2 ^ s) ∧
      (x + 2 ^ s - 1 < 2 ^ w →
        (2 ^ s ∣ LCTF_ALIGN_OFFS w x (2 ^ s) ∧ x ≤ LCTF_ALIGN_OFFS w x (2 ^ s) ∧
          LCTF_ALIGN_OFFS w x (2 ^ s) < x + 2 ^ s)) := by
  have hm : 0 < 2 ^ s := Nat.two_pow_pos s
  have hM : 0 < 2 ^ w := Nat.two_pow_pos w
  have hMK : 2 ^ w = 2 ^ s * 2 ^ (w - s) := by
    rw [← Nat.pow_add]
    congr 1
    omega
  have halign : LCTF_ALIGN_OFFS w x (2 ^ s)
      = (2 ^ s * ((x + 2 ^ s - 1) / 2 ^ s)) % 2 ^ w := by
    rw [LCTF_ALIGN_OFFS, wnot_two_pow_sub_one w s hs,
      land_two_pow_sub_two_pow w s _ hs (Nat.mod_lt _ hM)]
    have hx1 : x + (2 ^ s - 1) = x + 2 ^ s - 1 := by omega
    rw [hx1, hMK, Nat.mod_mul_right_div_self, ← Nat.mul_mod_mul_left]
  have hx1lt : x % 2 ^ w < 2 ^ w := Nat.mod_lt _ hM
  have hAred : (2 ^ s * ((x + 2 ^ s - 1) / 2 ^ s)) % 2 ^ w
      = (2 ^ s * ((x % 2 ^ w + 2 ^ s - 1) / 2 ^ s)) % 2 ^ w := by
    have hdm := Nat.div_add_mod x (2 ^ w)
    have hsplit : x + 2 ^ s - 1
        = (x % 2 ^ w + 2 ^ s - 1) + 2 ^ s * (2 ^ (w - s) * (x / 2 ^ w)) := by
      rw [← Nat.mul_assoc, ← hMK]
      omega
    rw [hsplit, Nat.add_mul_div_left _ _ hm, Nat.mul_add, ← Nat.mul_assoc, ← hMK]
    exact Nat.add_mul_mod_self_left _ _ _
  have hP2R : P2ROUNDUP w x (2 ^ s)
      = (2 ^ s * ((x % 2 ^ w + 2 ^ s - 1) / 2 ^ s)) % 2 ^ w := by
    rw [P2ROUNDUP, wneg_two_pow w s hs]
    by_cases h0 : x % 2 ^ w = 0
    · have hz : wneg w x = 0 := by
        rw [wneg, h0, Nat.sub_zero, Nat.mod_self]
      rw [hz, Nat.zero_and, h0, Nat.zero_add,
        Nat.div_eq_of_lt (by omega : 2 ^ s - 1 < 2 ^ s), Nat.mul_zero, Nat.zero_mod,
        wneg, Nat.zero_mod, Nat.sub_zero, Nat.mod_self]
    · have hneg : wneg w x = 2 ^ w - x % 2 ^ w := by
        rw [wneg, Nat.mod_eq_of_lt (by omega)]
      rw [hneg, land_two_pow_sub_two_pow w s _ hs (by omega)]
      obtain ⟨hqK, hq1, hF4⟩ :=
        ceil_div_facts (2 ^ s) (2 ^ (w - s)) (x % 2 ^ w) hm (by omega)
          (by rw [← hMK]; omega)
      rw [← hMK] at hF4
      rw [hF4]
      set q := (x % 2 ^ w + 2 ^ s - 1) / 2 ^ s with hqdef
      have hmq : 2 ^ s * (2 ^ (w - s) - q) = 2 ^ w - 2 ^ s * q := by
        rw [Nat.mul_sub_left_distrib, ← hMK]
      have hle : 2 ^ s * q ≤ 2 ^ w := by
        rw [hMK]
        exact Nat.mul_le_mul_left _ hqK
      have hpos : 0 < 2 ^ s * q := Nat.mul_pos hm hq1
      rw [hmq, wneg]
      rw [Nat.mod_eq_of_lt (by omega : 2 ^ w - 2 ^ s * q < 2 ^ w),
        Nat.sub_sub_self hle]
  refine ⟨by rw [hP2R, halign, hAred], ?_⟩
  intro hov
  rw [halign]
  have hq := Nat.div_add_mod (x + 2 ^ s - 1) (2 ^ s)
  have hr : (x + 2 ^ s - 1) % 2 ^ s < 2 ^ s := Nat.mod_lt _ hm
  rw [Nat.mod_eq_of_lt (by omega)]
  exact ⟨⟨_, rfl⟩, by omega, by omega⟩

/-- C10 witness: the header's own example, `P2ROUNDUP(0x1234, 0x100) ==
    0x1300` at 32 bits, together with the least-multiple properties. -/
theorem p2roundup_align_offs_agree_witness :
    (P2ROUNDUP 32 4660 (2 ^ 8) = LCTF_ALIGN_OFFS 32 4660 (2 ^ 8) ∧
      (4660 + 2 ^ 8 - 1 < 2 ^ 32 →
        (2 ^ 8 ∣ LCTF_ALIGN_OFFS 32 4660 (2 ^ 8) ∧
          4660 ≤ LCTF_ALIGN_OFFS 32 4660 (2 ^ 8) ∧
          LCTF_ALIGN_OFFS 32 4660 (2 ^ 8) < 4660 + 2 ^ 8))) ∧
      LCTF_ALIGN_OFFS 32 4660 (2 ^ 8) = 4864 :=
  ⟨p2roundup_align_offs_agree 32 8 4660 (by decide), by decide⟩

/-! ## Type Container and Dynamic Overlay

`ctf-impl.h` declares the container state (`struct ctf_file`, `ctf_dtdef_t`,
`ctf_dvdef_t`) and the overlay entry points (`ctf_dtd_insert`,
`ctf_dtd_delete`, `ctf_dtd_lookup`, `ctf_dvd_*`), but their bodies live in
`ctf-create.c` / `ctf-lookup.c`, which are absent; the operations below are
modelled from the specification. -/

/-- Modelled from the spec: the error taxonomy of §7 (the result codes of
    the absent `ctf-create.c` / `ctf-open.c` / `ctf-lookup.c`). -/
inductive CtfError where
  | ParseError
  | InvalidId
  | DuplicateName
  | InvalidPayload
  | InvalidEpoch
  | OutOfMemory
deriving Repr, DecidableEq

/-- Type kinds (the kind codes of the absent `ctf.h` header). -/
inductive CtfKind where
  | integer
  | float
  | pointer
  | array
  | function
  | struct
  | union
  | enum
  | typedef
deriving Repr, DecidableEq

/-- The four partitioned name spaces of the Byte-Table Index
    (`ctf_structs` / `ctf_unions` / `ctf_enums` / `ctf_names` in
    `struct ctf_file`). -/
inductive NameTable where
  | structs
  | unions
  | enums
  | names
deriving Repr, DecidableEq

/-- Which partitioned name table a kind is indexed in. -/
def kindTable : CtfKind → NameTable
  | .struct => .structs
  | .union => .unions
  | .enum => .enums
  | _ => .names

/-- Modelled from the spec: a dynamic type definition (`ctf_dtdef_t`); the
    kind-specific payload is abstracted to the list of type ids it
    structurally references, plus a creation snapshot epoch used for
    rollback accounting (the spec ties rollback to epochs). -/
structure ctf_dtdef where
  dtd_name : Option String
  dtd_type : Nat
  dtd_kind : CtfKind
  dtd_refs : List Nat
  dtd_epoch : Nat
deriving Repr, DecidableEq

/-- Modelled from the spec: a dynamic variable definition (`ctf_dvdef_t`)
    with its `dvd_snapshots` creation epoch. -/
structure ctf_dvdef where
  dvd_name : String
  dvd_type : Nat
  dvd_snapshots : Nat
deriving Repr, DecidableEq

/-- A committed (static) type record as parsed from the immutable buffer;
    the id of the record at position `i` is local index `i + 1`. -/
structure SRecord where
  sr_name : Option String
  sr_kind : CtfKind
  sr_refs : List Nat
deriving Repr, DecidableEq

/-- Modelled from the spec: the container state (`struct ctf_file`).
    `ctf_statics` and `ctf_svars` stand for the parsed immutable buffer and
    its Byte-Table Index; `ctf_buf` is the committed byte buffer itself;
    the three dynamic type views (list, id index, name index) and the two
    dynamic variable views mirror `ctf_dtdefs` / `ctf_dthash` /
    `ctf_dtbyname` and `ctf_dvdefs` / `ctf_dvhash`; `ctf_snapshot_lu` is the
    epoch boundary of the last commit. -/
structure ctf_file where
  ctf_buf : List Nat
  ctf_statics : List SRecord
  ctf_svars : List (String × Nat)
  ctf_dtdefs : List ctf_dtdef
  ctf_dthash : List (Nat × ctf_dtdef)
  ctf_dtbyname : List (String × ctf_dtdef)
  ctf_dvdefs : List ctf_dvdef
  ctf_dvhash : List (String × ctf_dvdef)
  ctf_dtnextid : Nat
  ctf_dtoldid : Nat
  ctf_snapshots : Nat
  ctf_snapshot_lu : Nat
  ctf_parmax : Nat
  ctf_parent : Option (List SRecord)
deriving Repr, DecidableEq

/-- Modelled from the spec: `ctf_dtd_insert` adds a definition to the
    insertion-ordered list, the id index and (when named) the name index;
    newer name-index entries sit in front of older ones (newest wins). -/
def ctf_dtd_insert (fp : ctf_file) (dtd : ctf_dtdef) : ctf_file :=
  { fp with
    ctf_dtdefs := fp.ctf_dtdefs ++ [dtd]
    ctf_dthash := (dtd.dtd_type, dtd) :: fp.ctf_dthash
    ctf_dtbyname :=
      match dtd.dtd_name with
      | some n => (n, dtd) :: fp.ctf_dtbyname
      | none => fp.ctf_dtbyname }

/-- Modelled from the spec: `ctf_dtd_delete` removes a definition from all
    three views at once. -/
def ctf_dtd_delete (fp : ctf_file) (dtd : ctf_dtdef) : ctf_file :=
  { fp with
    ctf_dtdefs := fp.ctf_dtdefs.filter (fun d => d.dtd_type != dtd.dtd_type)
    ctf_dthash := fp.ctf_dthash.filter (fun p => p.1 != dtd.dtd_type)
    ctf_dtbyname := fp.ctf_dtbyname.filter (fun p => p.2.dtd_type != dtd.dtd_type) }

/-- `ctf_dtd_lookup`: dynamic definition by id, through the id index. -/
def ctf_dtd_lookup (fp : ctf_file) (id : Nat) : Option ctf_dtdef :=
  (fp.ctf_dthash.find? (fun p => p.1 == id)).map (fun p => p.2)

/-- Dynamic definition by name (the `ctf_dtbyname` index), restricted to
    one partitioned name space; first (newest) match wins. -/
def ctf_dtd_lookup_name (fp : ctf_file) (name : String) (tbl : NameTable) :
    Option ctf_dtdef :=
  (fp.ctf_dtbyname.find?
    (fun p => p.1 == name && kindTable p.2.dtd_kind == tbl)).map (fun p => p.2)

/-- Modelled from the spec: `ctf_dvd_insert`. -/
def ctf_dvd_insert (fp : ctf_file) (dvd : ctf_dvdef) : ctf_file :=
  { fp with
    ctf_dvdefs := fp.ctf_dvdefs ++ [dvd]
    ctf_dvhash := (dvd.dvd_name, dvd) :: fp.ctf_dvhash }

/-- Modelled from the spec: `ctf_dvd_delete` removes a variable definition
    from both views. -/
def ctf_dvd_delete (fp : ctf_file) (dvd : ctf_dvdef) : ctf_file :=
  { fp with
    ctf_dvdefs := fp.ctf_dvdefs.filter (fun v => v.dvd_name != dvd.dvd_name)
    ctf_dvhash := fp.ctf_dvhash.filter (fun p => p.1 != dvd.dvd_name) }

/-- Modelled from the spec: `add_type` allocates the next id from the
    monotonic counter `ctf_dtnextid`, stamps the current epoch, and inserts
    into all overlay views. -/
def ctf_add_type (fp : ctf_file) (kind : CtfKind) (name : Option String)
    (refs : List Nat) : ctf_file × Nat :=
  let id := fp.ctf_dtnextid
  let dtd : ctf_dtdef :=
    { dtd_name := name, dtd_type := id, dtd_kind := kind, dtd_refs := refs
      dtd_epoch := fp.ctf_snapshots }
  (ctf_dtd_insert { fp with ctf_dtnextid := id + 1 } dtd, id)

/-- Modelled from the spec: `add_variable` stamps `dvd_snapshots` with the
    current epoch. -/
def ctf_add_variable (fp : ctf_file) (name : String) (tid : Nat) : ctf_file :=
  ctf_dvd_insert fp
    { dvd_name := name, dvd_type := tid, dvd_snapshots := fp.ctf_snapshots }

/-- Modelled from the spec: `snapshot()` returns the current epoch and the
    counter is incremented by the snapshotting operation. -/
def ctf_snapshot (fp : ctf_file) : Nat × ctf_file :=
  (fp.ctf_snapshots, { fp with ctf_snapshots := fp.ctf_snapshots + 1 })

/-- Name bytes for serialization (characters as byte values, then a NUL). -/
def serializeName : Option String → List Nat
  | none => [0]
  | some s => s.data.map Char.toNat ++ [0]

/-- Numeric code of a kind in the committed record format. -/
def kindCode : CtfKind → Nat
  | .integer => 1
  | .float => 2
  | .pointer => 3
  | .array => 4
  | .function => 5
  | .struct => 6
  | .union => 7
  | .enum => 8
  | .typedef => 9

/-- One committed type record: kind code, name bytes, payload length and
    payload reference ids. -/
def serializeRecord (r : SRecord) : List Nat :=
  kindCode r.sr_kind :: serializeName r.sr_name ++ r.sr_refs.length :: r.sr_refs

/-- One committed variable entry. -/
def serializeVar (v : String × Nat) : List Nat :=
  v.1.data.map Char.toNat ++ [0, v.2]

/-- Modelled from the spec: the canonical committed byte buffer — record
    count, records in declaration (insertion) order, variable count,
    variables. -/
def serializeBuf (recs : List SRecord) (seVars : List (String × Nat)) : List Nat :=
  recs.length :: (recs.map serializeRecord).flatten
    ++ seVars.length :: (seVars.map serializeVar).flatten

/-- The committed record a dynamic definition folds into. -/
def dtdToSRecord (d : ctf_dtdef) : SRecord :=
  { sr_name := d.dtd_name, sr_kind := d.dtd_kind, sr_refs := d.dtd_refs }

/-- Global id of this container's own static record with local index
    `idx1` (1-based): encoded with the child flag via `LCTF_INDEX_TO_TYPE`
    when a parent is attached, the raw index otherwise (the spec: with no
    parent every id is local). -/
def ownStaticId (fp : ctf_file) (idx1 : Nat) : Nat :=
  if fp.ctf_parent.isSome then LCTF_INDEX_TO_TYPE fp.ctf_parmax idx1 true else idx1

/-- Whether a type id designates an existing type of this container: a
    parent type (decided with `LCTF_TYPE_ISPARENT`), one of its own static
    records, or a dynamic definition. -/
def ctf_type_exists (fp : ctf_file) (id : Nat) : Bool :=
  (match fp.ctf_parent with
   | some precs => LCTF_TYPE_ISPARENT fp.ctf_parmax id && id != 0 && id ≤ precs.length
   | none => false)
  || (List.range fp.ctf_statics.length).any (fun i => ownStaticId fp (i + 1) == id)
  || (ctf_dtd_lookup fp id).isSome

/-- Modelled from the spec: `commit()` (`ctf_update`).  Serializes static
    plus dynamic definitions into one new immutable buffer in canonical
    order, rebuilds the index, clears the overlay and advances the epoch.
    Any failure — an invalid structural reference to a type id that does
    not exist, or an allocation failure (`alloc_ok = false`) — returns the
    container exactly as it was, with the error code. -/
def ctf_update (fp : ctf_file) (alloc_ok : Bool) : ctf_file × Option CtfError :=
  if fp.ctf_dtdefs.any (fun d => d.dtd_refs.any (fun r => !(ctf_type_exists fp r))) then
    (fp, some .InvalidId)
  else if !alloc_ok then
    (fp, some .OutOfMemory)
  else
    let newStatics := fp.ctf_statics ++ fp.ctf_dtdefs.map dtdToSRecord
    let newVars := fp.ctf_svars ++ fp.ctf_dvdefs.map (fun v => (v.dvd_name, v.dvd_type))
    ({ fp with
        ctf_buf := serializeBuf newStatics newVars
        ctf_statics := newStatics
        ctf_svars := newVars
        ctf_dtdefs := []
        ctf_dthash := []
        ctf_dtbyname := []
        ctf_dvdefs := []
        ctf_dvhash := []
        ctf_dtoldid := fp.ctf_dtnextid - 1
        ctf_snapshots := fp.ctf_snapshots + 1
        ctf_snapshot_lu := fp.ctf_snapshots + 1 }, none)

/-- Modelled from the spec: `rollback(target_epoch)` fails with
    `InvalidEpoch` when the target is older than the last commit boundary
    (those definitions are already folded in and cannot be un-committed),
    leaving the overlay untouched; otherwise it walks the overlay deleting
    from all views every dynamic type and variable definition created at or
    after the target epoch. -/
def ctf_rollback (fp : ctf_file) (t : Nat) : ctf_file × Option CtfError :=
  if t < fp.ctf_snapshot_lu then
    (fp, some .InvalidEpoch)
  else
    let tv := fp.ctf_dtdefs.filter (fun d => decide (t ≤ d.dtd_epoch))
    let fp1 := tv.foldl ctf_dtd_delete fp
    let vv := fp1.ctf_dvdefs.filter (fun v => decide (t ≤ v.dvd_snapshots))
    (vv.foldl ctf_dvd_delete fp1, none)

/-- C2: commit atomicity.  Whenever `commit` fails — for an invalid
    structural reference or an allocation failure — the container after
    the call is exactly the container before it: committed buffer,
    Byte-Table Index and every pending dynamic definition unchanged. -/
theorem ctf_update_atomic (fp : ctf_file) (alloc_ok : Bool) (e : CtfError)
    (h : (ctf_update fp alloc_ok).2 = some e) :
    (ctf_update fp alloc_ok).1 = fp := by
  by_cases h1 : fp.ctf_dtdefs.any (fun d => d.dtd_refs.any (fun r => !(ctf_type_exists fp r)))
  · simp [ctf_update, h1]
  · by_cases h2 : alloc_ok
    · simp [ctf_update, h1, h2] at h
    · simp [ctf_update, h1, h2]

/-- C8: commit idempotence by content.  A container with no pending
    dynamic definitions, whose buffer is the canonical serialization of its
    committed state (as `open` and every successful `commit` establish),
    commits successfully to a byte-identical buffer. -/
theorem ctf_update_idempotent (fp : ctf_file)
    (hdt : fp.ctf_dtdefs = []) (hdv : fp.ctf_dvdefs = [])
    (hbuf : fp.ctf_buf = serializeBuf fp.ctf_statics fp.ctf_svars) :
    (ctf_update fp true).2 = none ∧ (ctf_update fp true).1.ctf_buf = fp.ctf_buf := by
  simp [ctf_update, hdt, hdv, hbuf]

/-! ## Overlay view consistency and rollback (C3) -/

/-- The three dynamic-type views agree: the id index and the name index
    hold exactly the entries of the insertion-ordered list (newest first,
    as `ctf_dtd_insert` prepends), and assigned ids are distinct. -/
abbrev dtdViewsConsistent (fp : ctf_file) : Prop :=
  fp.ctf_dthash = (fp.ctf_dtdefs.map (fun d => (d.dtd_type, d))).reverse
    ∧ fp.ctf_dtbyname
        = fp.ctf_dtdefs.reverse.filterMap (fun d => d.dtd_name.map (fun n => (n, d)))
    ∧ (fp.ctf_dtdefs.map (fun d => d.dtd_type)).Nodup

/-- The two dynamic-variable views agree and variable names are distinct. -/
abbrev dvdViewsConsistent (fp : ctf_file) : Prop :=
  fp.ctf_dvhash = (fp.ctf_dvdefs.map (fun v => (v.dvd_name, v))).reverse
    ∧ (fp.ctf_dvdefs.map (fun v => v.dvd_name)).Nodup

/-- Folding `ctf_dtd_delete` over a victim list filters each dynamic-type
    view by "shares no id with a victim" and leaves the variable views and
    the commit boundary untouched. -/
theorem foldl_dtd_delete_views (vs : List ctf_dtdef) (fp : ctf_file) :
    (vs.foldl ctf_dtd_delete fp).ctf_dtdefs
        = fp.ctf_dtdefs.filter
            (fun d => !(vs.any (fun v => d.dtd_type == v.dtd_type)))
      ∧ (vs.foldl ctf_dtd_delete fp).ctf_dthash
        = fp.ctf_dthash.filter
            (fun p => !(vs.any (fun v => p.1 == v.dtd_type)))
      ∧ (vs.foldl ctf_dtd_delete fp).ctf_dtbyname
        = fp.ctf_dtbyname.filter
            (fun p => !(vs.any (fun v => p.2.dtd_type == v.dtd_type)))
      ∧ (vs.foldl ctf_dtd_delete fp).ctf_dvdefs = fp.ctf_dvdefs
      ∧ (vs.foldl ctf_dtd_delete fp).ctf_dvhash = fp.ctf_dvhash
      ∧ (vs.foldl ctf_dtd_delete fp).ctf_snapshot_lu = fp.ctf_snapshot_lu := by
  induction vs generalizing fp with
  | nil => simp
  | cons v vs ih =>
    obtain ⟨h1, h2, h3, h4, h5, h6⟩ := ih (ctf_dtd_delete fp v)
    rw [List.foldl_cons]
    refine ⟨?_, ?_, ?_, ?_, ?_, ?_⟩
    · rw [h1]
      show ((fp.ctf_dtdefs.filter _).filter _) = _
      rw [List.filter_filter]
      apply List.filter_congr
      intro d _
      simp [List.any_cons, Bool.not_or, bne, Bool.and_comm]
    · rw [h2]
      show ((fp.ctf_dthash.filter _).filter _) = _
      rw [List.filter_filter]
      apply List.filter_congr
      intro p _
      simp [List.any_cons, Bool.not_or, bne, Bool.and_comm]
    · rw [h3]
      show ((fp.ctf_dtbyname.filter _).filter _) = _
      rw [List.filter_filter]
      apply List.filter_congr
      intro p _
      simp [List.any_cons, Bool.not_or, bne, Bool.and_comm]
    · rw [h4]
      rfl
    · rw [h5]
      rfl
    · rw [h6]
      rfl

/-- Folding `ctf_dvd_delete` over a victim list filters both variable
    views by name and leaves the type views untouched. -/
theorem foldl_dvd_delete_views (vs : List ctf_dvdef) (fp : ctf_file) :
    (vs.foldl ctf_dvd_delete fp).ctf_dvdefs
        = fp.ctf_dvdefs.filter
            (fun d => !(vs.any (fun v => d.dvd_name == v.dvd_name)))
      ∧ (vs.foldl ctf_dvd_delete fp).ctf_dvhash
        = fp.ctf_dvhash.filter
            (fun p => !(vs.any (fun v => p.1 == v.dvd_name)))
      ∧ (vs.foldl ctf_dvd_delete fp).ctf_dtdefs = fp.ctf_dtdefs
      ∧ (vs.foldl ctf_dvd_delete fp).ctf_dthash = fp.ctf_dthash
      ∧ (vs.foldl ctf_dvd_delete fp).ctf_dtbyname = fp.ctf_dtbyname := by
  induction vs generalizing fp with
  | nil => simp
  | cons v vs ih =>
    obtain ⟨h1, h2, h3, h4, h5⟩ := ih (ctf_dvd_delete fp v)
    rw [List.foldl_cons]
    refine ⟨?_, ?_, ?_, ?_, ?_⟩
    · rw [h1]
      show ((fp.ctf_dvdefs.filter _).filter _) = _
      rw [List.filter_filter]
      apply List.filter_congr
      intro d _
      simp [List.any_cons, Bool.not_or, bne, Bool.and_comm]
    · rw [h2]
      show ((fp.ctf_dvhash.filter _).filter _) = _
      rw [List.filter_filter]
      apply List.filter_congr
      intro p _
      simp [List.any_cons, Bool.not_or, bne, Bool.and_comm]
    · rw [h3]
      rfl
    · rw [h4]
      rfl
    · rw [h5]
      rfl

/-- On a member of a list with distinct ids, "some victim shares my id"
    is exactly "I am a victim" (victims being the epoch-`≥ t` entries). -/
theorem victims_any_eq (l : List ctf_dtdef)
    (hnd : (l.map (fun d => d.dtd_type)).Nodup) (t : Nat) (d : ctf_dtdef)
    (hd : d ∈ l) :
    (l.filter (fun x => decide (t ≤ x.dtd_epoch))).any
        (fun v => d.dtd_type == v.dtd_type)
      = decide (t ≤ d.dtd_epoch) := by
  by_cases ht : t ≤ d.dtd_epoch
  · rw [decide_eq_true ht]
    rw [List.any_eq_true]
    exact ⟨d, List.mem_filter.mpr ⟨hd, by simp [ht]⟩, by simp⟩
  · rw [decide_eq_false ht]
    rw [List.any_eq_false]
    intro v hv
    obtain ⟨hvl, hvt⟩ := List.mem_filter.mp hv
    intro hbeq
    have hid : d.dtd_type = v.dtd_type := by simpa using hbeq
    have hdv : d = v := List.inj_on_of_nodup_map hnd hd hvl hid
    rw [hdv] at ht
    simp at hvt
    exact ht hvt

/-- Variable-side analogue of `victims_any_eq`, keyed by name. -/
theorem vvictims_any_eq (l : List ctf_dvdef)
    (hnd : (l.map (fun v => v.dvd_name)).Nodup) (t : Nat) (d : ctf_dvdef)
    (hd : d ∈ l) :
    (l.filter (fun x => decide (t ≤ x.dvd_snapshots))).any
        (fun v => d.dvd_name == v.dvd_name)
      = decide (t ≤ d.dvd_snapshots) := by
  by_cases ht : t ≤ d.dvd_snapshots
  · rw [decide_eq_true ht]
    rw [List.any_eq_true]
    exact ⟨d, List.mem_filter.mpr ⟨hd, by simp [ht]⟩, by simp⟩
  · rw [decide_eq_false ht]
    rw [List.any_eq_false]
    intro v hv
    obtain ⟨hvl, hvt⟩ := List.mem_filter.mp hv
    intro hbeq
    have hid : d.dvd_name = v.dvd_name := by simpa using hbeq
    have hdv : d = v := List.inj_on_of_nodup_map hnd hd hvl hid
    rw [hdv] at ht
    simp at hvt
    exact ht hvt

/-- If `a` is the unique element of `l` satisfying `p`, then `find?`
    returns it. -/
theorem find_eq_of_unique {α : Type} (l : List α) (p : α → Bool) (a : α)
    (ha : a ∈ l) (hpa : p a = true) (huniq : ∀ b ∈ l, p b = true → b = a) :
    l.find? p = some a := by
  induction l with
  | nil => simp at ha
  | cons x xs ih =>
    by_cases hx : p x
    · have hxa : x = a := huniq x (List.mem_cons_self x xs) hx
      subst hxa
      exact List.find?_cons_of_pos xs hx
    · rw [List.find?_cons_of_neg xs hx]
      apply ih
      · rcases List.mem_cons.mp ha with h | h
        · rw [h] at hpa
          exact absurd hpa hx
        · exact h
      · intro b hb hpb
        exact huniq b (List.mem_cons_of_mem x hb) hpb

/-- With consistent views, looking up a present definition by id through
    the id index finds exactly that definition. -/
theorem ctf_dtd_lookup_mem (fp : ctf_file) (h : dtdViewsConsistent fp)
    (d : ctf_dtdef) (hd : d ∈ fp.ctf_dtdefs) :
    ctf_dtd_lookup fp d.dtd_type = some d := by
  obtain ⟨hh, hb, hnd⟩ := h
  rw [ctf_dtd_lookup, hh]
  have hmem : (d.dtd_type, d) ∈ (fp.ctf_dtdefs.map (fun x => (x.dtd_type, x))).reverse := by
    rw [List.mem_reverse]
    exact List.mem_map.mpr ⟨d, hd, rfl⟩
  have huniq : ∀ b ∈ (fp.ctf_dtdefs.map (fun x => (x.dtd_type, x))).reverse,
      (b.1 == d.dtd_type) = true → b = (d.dtd_type, d) := by
    intro b hbmem hpb
    rw [List.mem_reverse] at hbmem
    obtain ⟨x, hx, hxb⟩ := List.mem_map.mp hbmem
    subst hxb
    have hxd : x.dtd_type = d.dtd_type := by simpa using hpb
    have hx2 : x = d := List.inj_on_of_nodup_map hnd hx hd hxd
    rw [hx2]
  rw [find_eq_of_unique _ _ (d.dtd_type, d) hmem (by simp) huniq]
  rfl

/-- With consistent views, looking up an id that no present definition
    carries yields nothing. -/
theorem ctf_dtd_lookup_none (fp : ctf_file) (h : dtdViewsConsistent fp)
    (id : Nat) (hid : ∀ d ∈ fp.ctf_dtdefs, d.dtd_type ≠ id) :
    ctf_dtd_lookup fp id = none := by
  obtain ⟨hh, hb, hnd⟩ := h
  rw [ctf_dtd_lookup, hh]
  have hnone : ((fp.ctf_dtdefs.map (fun x => (x.dtd_type, x))).reverse.find?
      (fun p => p.1 == id)) = none := by
    rw [List.find?_eq_none]
    intro p hp
    rw [List.mem_reverse] at hp
    obtain ⟨x, hx, hxp⟩ := List.mem_map.mp hp
    subst hxp
    simp only [beq_iff_eq]
    exact hid x hx
  rw [hnone]
  rfl

/-- Pointwise: surviving the victim sweep is exactly "created before the
    target epoch". -/
theorem not_victim_eq (l : List ctf_dtdef)
    (hnd : (l.map (fun d => d.dtd_type)).Nodup) (t : Nat) (d : ctf_dtdef)
    (hd : d ∈ l) :
    (!((l.filter (fun x => decide (t ≤ x.dtd_epoch))).any
        (fun v => d.dtd_type == v.dtd_type)))
      = decide (d.dtd_epoch < t) := by
  rw [victims_any_eq l hnd t d hd]
  by_cases h : t ≤ d.dtd_epoch
  · rw [decide_eq_true h, decide_eq_false (by omega : ¬ d.dtd_epoch < t)]
    rfl
  · rw [decide_eq_false h, decide_eq_true (by omega : d.dtd_epoch < t)]
    rfl

/-- Variable-side analogue of `not_victim_eq`. -/
theorem vnot_victim_eq (l : List ctf_dvdef)
    (hnd : (l.map (fun v => v.dvd_name)).Nodup) (t : Nat) (d : ctf_dvdef)
    (hd : d ∈ l) :
    (!((l.filter (fun x => decide (t ≤ x.dvd_snapshots))).any
        (fun v => d.dvd_name == v.dvd_name)))
      = decide (d.dvd_snapshots < t) := by
  rw [vvictims_any_eq l hnd t d hd]
  by_cases h : t ≤ d.dvd_snapshots
  · rw [decide_eq_true h, decide_eq_false (by omega : ¬ d.dvd_snapshots < t)]
    rfl
  · rw [decide_eq_false h, decide_eq_true (by omega : d.dvd_snapshots < t)]
    rfl

/-- C3: rollback exactness.  With the overlay views consistent, a target
    epoch older than the commit boundary fails with `InvalidEpoch` and the
    container is untouched; otherwise rollback removes exactly the dynamic
    type and variable definitions created at epoch `≥ t` from the list, the
    id index and the name index, keeps every earlier definition, preserves
    view consistency, and all surviving definitions remain id-lookup
    consistent while rolled-back ids no longer resolve. -/
theorem ctf_rollback_exact (fp : ctf_file) (t : Nat)
    (hdt : dtdViewsConsistent fp) (hdv : dvdViewsConsistent fp) :
    (t < fp.ctf_snapshot_lu → ctf_rollback fp t = (fp, some CtfError.InvalidEpoch))
    ∧ (fp.ctf_snapshot_lu ≤ t →
        (ctf_rollback fp t).2 = none
        ∧ (ctf_rollback fp t).1.ctf_dtdefs
            = fp.ctf_dtdefs.filter (fun d => decide (d.dtd_epoch < t))
        ∧ (ctf_rollback fp t).1.ctf_dvdefs
            = fp.ctf_dvdefs.filter (fun v => decide (v.dvd_snapshots < t))
        ∧ dtdViewsConsistent (ctf_rollback fp t).1
        ∧ dvdViewsConsistent (ctf_rollback fp t).1
        ∧ (∀ d ∈ fp.ctf_dtdefs, d.dtd_epoch < t →
            ctf_dtd_lookup (ctf_rollback fp t).1 d.dtd_type = some d)
        ∧ (∀ d ∈ fp.ctf_dtdefs, t ≤ d.dtd_epoch →
            ctf_dtd_lookup (ctf_rollback fp t).1 d.dtd_type = none)) := by
  obtain ⟨hh, hb, hnd⟩ := hdt
  obtain ⟨hvh, hvnd⟩ := hdv
  constructor
  · intro hlt
    simp only [ctf_rollback, if_pos hlt]
  · intro hge
    have hif : ¬ t < fp.ctf_snapshot_lu := by omega
    obtain ⟨fp1, hfp1⟩ : ∃ fp1,
        (fp.ctf_dtdefs.filter (fun d => decide (t ≤ d.dtd_epoch))).foldl
          ctf_dtd_delete fp = fp1 := ⟨_, rfl⟩
    have F := foldl_dtd_delete_views
      (fp.ctf_dtdefs.filter (fun d => decide (t ≤ d.dtd_epoch))) fp
    rw [hfp1] at F
    obtain ⟨f1, f2, f3, f4, f5, f6⟩ := F
    obtain ⟨fp2, hfp2⟩ : ∃ fp2,
        (fp1.ctf_dvdefs.filter (fun v => decide (t ≤ v.dvd_snapshots))).foldl
          ctf_dvd_delete fp1 = fp2 := ⟨_, rfl⟩
    have G := foldl_dvd_delete_views
      (fp1.ctf_dvdefs.filter (fun v => decide (t ≤ v.dvd_snapshots))) fp1
    rw [hfp2] at G
    obtain ⟨g1, g2, g3, g4, g5⟩ := G
    rw [f4] at g1 g2
    have hroll : ctf_rollback fp t = (fp2, none) := by
      simp only [ctf_rollback, if_neg hif]
      rw [hfp1, hfp2]
    have hsurvd : fp.ctf_dtdefs.filter
        (fun d => !((fp.ctf_dtdefs.filter (fun x => decide (t ≤ x.dtd_epoch))).any
          (fun v => d.dtd_type == v.dtd_type)))
        = fp.ctf_dtdefs.filter (fun d => decide (d.dtd_epoch < t)) := by
      apply List.filter_congr
      intro d hd
      exact not_victim_eq fp.ctf_dtdefs hnd t d hd
    have hsurvv : fp.ctf_dvdefs.filter
        (fun d => !((fp.ctf_dvdefs.filter (fun x => decide (t ≤ x.dvd_snapshots))).any
          (fun v => d.dvd_name == v.dvd_name)))
        = fp.ctf_dvdefs.filter (fun v => decide (v.dvd_snapshots < t)) := by
      apply List.filter_congr
      intro d hd
      exact vnot_victim_eq fp.ctf_dvdefs hvnd t d hd
    have hdt2 : fp2.ctf_dtdefs
        = fp.ctf_dtdefs.filter (fun d => decide (d.dtd_epoch < t)) := by
      rw [g3, f1, hsurvd]
    have hdv2 : fp2.ctf_dvdefs
        = fp.ctf_dvdefs.filter (fun v => decide (v.dvd_snapshots < t)) := by
      rw [g1, hsurvv]
    have hhash : fp.ctf_dthash.filter
        (fun p => !((fp.ctf_dtdefs.filter (fun x => decide (t ≤ x.dtd_epoch))).any
          (fun v => p.1 == v.dtd_type)))
        = ((fp.ctf_dtdefs.filter (fun d => decide (d.dtd_epoch < t))).map
            (fun d => (d.dtd_type, d))).reverse := by
      rw [hh, List.filter_reverse, List.filter_map]
      have hfc : fp.ctf_dtdefs.filter
          ((fun p : Nat × ctf_dtdef =>
            !((fp.ctf_dtdefs.filter (fun x => decide (t ≤ x.dtd_epoch))).any
              (fun v => p.1 == v.dtd_type))) ∘ (fun d => (d.dtd_type, d)))
          = fp.ctf_dtdefs.filter (fun d => decide (d.dtd_epoch < t)) :=
        List.filter_congr (fun d hd => not_victim_eq fp.ctf_dtdefs hnd t d hd)
      rw [hfc]
    have hby : fp.ctf_dtbyname.filter
        (fun p => !((fp.ctf_dtdefs.filter (fun x => decide (t ≤ x.dtd_epoch))).any
          (fun v => p.2.dtd_type == v.dtd_type)))
        = (fp.ctf_dtdefs.filter
            (fun d => decide (d.dtd_epoch < t))).reverse.filterMap
            (fun d => d.dtd_name.map (fun n => (n, d))) := by
      rw [hb, List.filter_filterMap, ← List.filter_reverse, List.filterMap_filter]
      apply List.filterMap_congr
      intro d hd
      rw [List.mem_reverse] at hd
      have hp := not_victim_eq fp.ctf_dtdefs hnd t d hd
      cases hn : d.dtd_name with
      | none => simp [hn]
      | some n =>
        simp only [hn, Option.map_some', Option.filter_some]
        exact if_congr (iff_of_eq (congrArg (fun b => b = true) hp)) rfl rfl
    have hvhash : fp.ctf_dvhash.filter
        (fun p => !((fp.ctf_dvdefs.filter (fun x => decide (t ≤ x.dvd_snapshots))).any
          (fun v => p.1 == v.dvd_name)))
        = ((fp.ctf_dvdefs.filter (fun v => decide (v.dvd_snapshots < t))).map
            (fun v => (v.dvd_name, v))).reverse := by
      rw [hvh, List.filter_reverse, List.filter_map]
      have hfc : fp.ctf_dvdefs.filter
          ((fun p : String × ctf_dvdef =>
            !((fp.ctf_dvdefs.filter (fun x => decide (t ≤ x.dvd_snapshots))).any
              (fun v => p.1 == v.dvd_name))) ∘ (fun v => (v.dvd_name, v)))
          = fp.ctf_dvdefs.filter (fun v => decide (v.dvd_snapshots < t)) :=
        List.filter_congr (fun d hd => vnot_victim_eq fp.ctf_dvdefs hvnd t d hd)
      rw [hfc]
    have hhash2 : fp2.ctf_dthash
        = ((fp.ctf_dtdefs.filter (fun d => decide (d.dtd_epoch < t))).map
            (fun d => (d.dtd_type, d))).reverse := by
      rw [g4, f2, hhash]
    have hby2 : fp2.ctf_dtbyname
        = (fp.ctf_dtdefs.filter
            (fun d => decide (d.dtd_epoch < t))).reverse.filterMap
            (fun d => d.dtd_name.map (fun n => (n, d))) := by
      rw [g5, f3, hby]
    have hvh2 : fp2.ctf_dvhash
        = ((fp.ctf_dvdefs.filter (fun v => decide (v.dvd_snapshots < t))).map
            (fun v => (v.dvd_name, v))).reverse := by
      rw [g2, f5, hvhash]
    have hndQ : ((fp.ctf_dtdefs.filter (fun d => decide (d.dtd_epoch < t))).map
        (fun d => d.dtd_type)).Nodup :=
      List.Nodup.sublist ((List.filter_sublist _).map _) hnd
    have hvndQ : ((fp.ctf_dvdefs.filter
        (fun v => decide (v.dvd_snapshots < t))).map
        (fun v => v.dvd_name)).Nodup :=
      List.Nodup.sublist ((List.filter_sublist _).map _) hvnd
    have hdtc : dtdViewsConsistent fp2 := by
      refine ⟨?_, ?_, ?_⟩
      · rw [hhash2, hdt2]
      · rw [hby2, hdt2]
      · rw [hdt2]
        exact hndQ
    have hdvc : dvdViewsConsistent fp2 := by
      refine ⟨?_, ?_⟩
      · rw [hvh2, hdv2]
      · rw [hdv2]
        exact hvndQ
    refine ⟨?_, ?_, ?_, ?_, ?_, ?_, ?_⟩
    · rw [hroll]
    · rw [hroll]
      exact hdt2
    · rw [hroll]
      exact hdv2
    · rw [hroll]
      exact hdtc
    · rw [hroll]
      exact hdvc
    · intro d hd hlt2
      rw [hroll]
      apply ctf_dtd_lookup_mem fp2 hdtc d
      rw [hdt2]
      exact List.mem_filter.mpr ⟨hd, by simp [hlt2]⟩
    · intro d hd hge2
      rw [hroll]
      apply ctf_dtd_lookup_none fp2 hdtc
      intro d2 hd2
      rw [hdt2] at hd2
      obtain ⟨hd2l, hd2q⟩ := List.mem_filter.mp hd2
      intro heq
      have hd2d : d2 = d := List.inj_on_of_nodup_map hnd hd2l hd heq
      rw [hd2d] at hd2q
      simp at hd2q
      omega

/-- Modelled from the spec: a fresh writable container (`ctf_create`):
    empty buffer, empty overlay, first id 1, first epoch 1. -/
def ctf_create : ctf_file :=
  { ctf_buf := serializeBuf [] []
    ctf_statics := []
    ctf_svars := []
    ctf_dtdefs := []
    ctf_dthash := []
    ctf_dtbyname := []
    ctf_dvdefs := []
    ctf_dvhash := []
    ctf_dtnextid := 1
    ctf_dtoldid := 0
    ctf_snapshots := 1
    ctf_snapshot_lu := 1
    ctf_parmax := 0
    ctf_parent := none }

/-- Three dynamic type additions at epochs 1, 2 and 3 (a snapshot between
    each pair), the spec's rollback scenario. -/
def exampleThree : ctf_file :=
  (ctf_add_type
    (ctf_snapshot
      (ctf_add_type
        (ctf_snapshot
          (ctf_add_type ctf_create .integer (some "a") []).1).2
        .integer (some "b") []).1).2
    .integer (some "c") []).1

/-- C3 witness: rolling the three-addition container back to epoch 2
    succeeds, removes exactly the epoch-`≥ 2` definitions, keeps the views
    consistent, and rolling back to epoch 0 (before the creation boundary)
    fails with `InvalidEpoch` leaving the container untouched. -/
theorem ctf_rollback_exact_witness :
    ((ctf_rollback exampleThree 2).2 = none
      ∧ (ctf_rollback exampleThree 2).1.ctf_dtdefs
          = exampleThree.ctf_dtdefs.filter (fun d => decide (d.dtd_epoch < 2))
      ∧ dtdViewsConsistent (ctf_rollback exampleThree 2).1)
    ∧ ctf_rollback exampleThree 0 = (exampleThree, some CtfError.InvalidEpoch) := by
  constructor
  · have h := (ctf_rollback_exact exampleThree 2 (by decide) (by decide)).2 (by decide)
    exact ⟨h.1, h.2.1, h.2.2.2.1⟩
  · exact (ctf_rollback_exact exampleThree 0 (by decide) (by decide)).1 (by decide)

/-! ## Name lookup with shadowing (C4) -/

/-- Local index (1-based) of the first record of the partitioned static
    index matching `name` in the table `tbl`. -/
def staticLookupIdx (recs : List SRecord) (name : String) (tbl : NameTable) :
    Option Nat :=
  (recs.enum.find? (fun p => p.2.sr_name == some name
    && kindTable p.2.sr_kind == tbl)).map (fun p => p.1 + 1)

/-- Modelled from the spec: `lookup_by_name(name, kind_filter)` consults
    the Dynamic Overlay first (newest wins — `ctf_dtbyname` holds newest
    entries in front), then the relevant partitioned static index, then the
    parent, translating the returned id into the caller's namespace with
    `LCTF_INDEX_TO_TYPE` (a parent id carries no child flag). -/
def ctf_lookup_by_name (fp : ctf_file) (name : String) (tbl : NameTable) :
    Option Nat :=
  match ctf_dtd_lookup_name fp name tbl with
  | some dtd => some dtd.dtd_type
  | none =>
    match staticLookupIdx fp.ctf_statics name tbl with
    | some idx => some (ownStaticId fp idx)
    | none =>
      match fp.ctf_parent with
      | some precs =>
        (staticLookupIdx precs name tbl).map
          (fun j => LCTF_INDEX_TO_TYPE fp.ctf_parmax j false)
      | none => none

/-- `find?` over the name-index image of a definition list is `find?` over
    the list itself: the first name-index entry whose key and kind match is
    the first matching definition. -/
theorem find_name_filterMap (l : List ctf_dtdef) (name : String) (tbl : NameTable) :
    (l.filterMap (fun d => d.dtd_name.map (fun n => (n, d)))).find?
        (fun p => p.1 == name && kindTable p.2.dtd_kind == tbl)
      = (l.find? (fun d => d.dtd_name == some name
          && kindTable d.dtd_kind == tbl)).map (fun d => (name, d)) := by
  induction l with
  | nil => rfl
  | cons d ds ih =>
    cases hn : d.dtd_name with
    | none => simp [List.filterMap_cons, hn, ih]
    | some n =>
      simp only [List.filterMap_cons, hn, Option.map_some']
      by_cases hname : n = name
      · by_cases hkind : kindTable d.dtd_kind = tbl
        · subst hname
          rw [List.find?_cons_of_pos _ (by simp [hkind]),
            List.find?_cons_of_pos _ (by simp [hn, hkind])]
          rfl
        · rw [List.find?_cons_of_neg _ (by simp [hkind]),
            List.find?_cons_of_neg _ (by simp [hkind])]
          exact ih
      · rw [List.find?_cons_of_neg _ (by simp [hname]),
          List.find?_cons_of_neg _ (by simp [hn, hname])]
        exact ih

/-- With consistent views, the overlay name-index lookup returns the
    newest (last-inserted) matching dynamic definition. -/
theorem dtd_lookup_name_eq_list (fp : ctf_file) (hdt : dtdViewsConsistent fp)
    (name : String) (tbl : NameTable) :
    ctf_dtd_lookup_name fp name tbl
      = fp.ctf_dtdefs.reverse.find?
          (fun x => x.dtd_name == some name && kindTable x.dtd_kind == tbl) := by
  rw [ctf_dtd_lookup_name, hdt.2.1, find_name_filterMap, Option.map_map]
  simp [Function.comp]

/-- C4: name-lookup shadowing order.  With consistent views: when some
    dynamic definition matches, lookup returns the newest one (shadowing
    both earlier dynamic ones and any static entry); when none matches,
    lookup returns the partitioned static index entry when there is one;
    otherwise the parent's entry translated into the caller's namespace. -/
theorem ctf_lookup_by_name_shadowing (fp : ctf_file) (name : String)
    (tbl : NameTable) (hdt : dtdViewsConsistent fp) :
    (∀ d, fp.ctf_dtdefs.reverse.find?
          (fun x => x.dtd_name == some name && kindTable x.dtd_kind == tbl)
            = some d →
        ctf_lookup_by_name fp name tbl = some d.dtd_type)
    ∧ (fp.ctf_dtdefs.reverse.find?
          (fun x => x.dtd_name == some name && kindTable x.dtd_kind == tbl)
            = none →
        (∀ idx, staticLookupIdx fp.ctf_statics name tbl = some idx →
            ctf_lookup_by_name fp name tbl = some (ownStaticId fp idx))
        ∧ (staticLookupIdx fp.ctf_statics name tbl = none →
            ctf_lookup_by_name fp name tbl
              = (match fp.ctf_parent with
                 | some precs => (staticLookupIdx precs name tbl).map
                     (fun j => LCTF_INDEX_TO_TYPE fp.ctf_parmax j false)
                 | none => none))) := by
  have hkey := dtd_lookup_name_eq_list fp hdt name tbl
  constructor
  · intro d hfind
    rw [ctf_lookup_by_name, hkey, hfind]
  · intro hnone
    constructor
    · intro idx hidx
      rw [ctf_lookup_by_name, hkey, hnone, hidx]
    · intro hsnone
      rw [ctf_lookup_by_name, hkey, hnone, hsnone]

/-- A read-only container holding one committed (static) type named
    `"foo"`. -/
def exampleStaticFoo : ctf_file :=
  { ctf_buf := serializeBuf [{ sr_name := some "foo", sr_kind := .typedef
                               sr_refs := [] }] []
    ctf_statics := [{ sr_name := some "foo", sr_kind := .typedef, sr_refs := [] }]
    ctf_svars := []
    ctf_dtdefs := []
    ctf_dthash := []
    ctf_dtbyname := []
    ctf_dvdefs := []
    ctf_dvhash := []
    ctf_dtnextid := 2
    ctf_dtoldid := 1
    ctf_snapshots := 1
    ctf_snapshot_lu := 1
    ctf_parmax := 0
    ctf_parent := none }

/-- `exampleStaticFoo` after adding a dynamic type also named `"foo"`. -/
def exampleShadowed : ctf_file :=
  (ctf_add_type exampleStaticFoo .typedef (some "foo") []).1

/-- C4 witness: the dynamic `"foo"` (id 2) shadows the static `"foo"`
    (id 1), and rolling the addition back restores resolution to the
    static one. -/
theorem ctf_lookup_by_name_shadowing_witness :
    ctf_lookup_by_name exampleShadowed "foo" NameTable.names = some 2
      ∧ ctf_lookup_by_name (ctf_rollback exampleShadowed 1).1 "foo"
          NameTable.names = some 1 := by
  constructor
  · exact (ctf_lookup_by_name_shadowing exampleShadowed "foo" .names (by decide)).1
      { dtd_name := some "foo", dtd_type := 2, dtd_kind := .typedef
        dtd_refs := [], dtd_epoch := 1 } (by decide)
  · have h := (ctf_lookup_by_name_shadowing (ctf_rollback exampleShadowed 1).1
      "foo" .names (by decide)).2 (by decide)
    exact (h.1 1 (by decide)).trans (by decide)

/-- A container whose single pending definition structurally references
    the nonexistent type id 99. -/
def exampleBadRef : ctf_file :=
  (ctf_add_type ctf_create .pointer none [99]).1

/-- C2 witness: committing `exampleBadRef` fails with `InvalidId` and
    leaves the container exactly as it was. -/
theorem ctf_update_atomic_witness :
    (ctf_update exampleBadRef true).1 = exampleBadRef :=
  ctf_update_atomic exampleBadRef true CtfError.InvalidId (by decide)

/-- A committed container: one integer type added and committed, so the
    buffer is the canonical serialization of the committed state. -/
def exampleCommitted : ctf_file :=
  (ctf_update (ctf_add_type ctf_create .integer (some "int") []).1 true).1

/-- C8 witness: re-committing the already committed container succeeds and
    produces a byte-identical buffer. -/
theorem ctf_update_idempotent_witness :
    (ctf_update exampleCommitted true).2 = none
      ∧ (ctf_update exampleCommitted true).1.ctf_buf = exampleCommitted.ctf_buf :=
  ctf_update_idempotent exampleCommitted (by decide) (by decide) (by decide)

/-! ## Declaration Renderer (C7, C9)

`ctf-impl.h` declares the precedence enum `ctf_decl_prec_t` (lines
108-115), the node and state structs (`ctf_decl_node_t`, `ctf_decl_t`) and
the entry points (`ctf_decl_push`, `ctf_decl_sprintf`, `ctf_decl_buf`);
the algorithm itself lives in the absent `ctf-decl.c` / `ctf-types.c` and
is modelled from the specification. -/

/-- The precedence enum `ctf_decl_prec_t` from the header:
    `CTF_PREC_BASE < CTF_PREC_POINTER < CTF_PREC_ARRAY <
    CTF_PREC_FUNCTION`. -/
inductive ctf_decl_prec where
  | CTF_PREC_BASE
  | CTF_PREC_POINTER
  | CTF_PREC_ARRAY
  | CTF_PREC_FUNCTION
deriving Repr, DecidableEq

/-- Numeric level of a precedence class (the C enum value). -/
def precLevel : ctf_decl_prec → Nat
  | .CTF_PREC_BASE => 0
  | .CTF_PREC_POINTER => 1
  | .CTF_PREC_ARRAY => 2
  | .CTF_PREC_FUNCTION => 3

/-- A type chain as walked by the renderer. -/
inductive CType where
  | base : String → CType
  | pointer : CType → CType
  | array : CType → Nat → CType
  | function : CType → CType
deriving Repr, DecidableEq

/-- One declaration node (`ctf_decl_node_t`): the base-type name, a
    pointer, an array with its dimension `cd_n`, or a function suffix. -/
inductive DeclNode where
  | baseN : String → DeclNode
  | ptrN : DeclNode
  | arrN : Nat → DeclNode
  | funcN : DeclNode
deriving Repr, DecidableEq

/-- Modelled from the spec: the renderer push state (`ctf_decl_t`): one
    node stack per precedence class (`cd_nodes`), the storage order of the
    first node pushed at each class (`cd_order`) and the next order stamp
    (`cd_ordp`). -/
structure ctf_decl where
  nodes_base : List DeclNode
  nodes_pointer : List DeclNode
  nodes_array : List DeclNode
  nodes_function : List DeclNode
  order_base : Option Nat
  order_pointer : Option Nat
  order_array : Option Nat
  order_function : Option Nat
  cd_ordp : Nat
deriving Repr, DecidableEq

/-- The renderer push state after `ctf_decl_init`. -/
def ctf_decl_init : ctf_decl :=
  { nodes_base := [], nodes_pointer := [], nodes_array := []
    nodes_function := [], order_base := none, order_pointer := none
    order_array := none, order_function := none, cd_ordp := 0 }

/-- Append one node to the stack of a precedence class, stamping the
    class's storage order the first time that class is used. -/
def pushNode (cd : ctf_decl) (prec : ctf_decl_prec) (nd : DeclNode) : ctf_decl :=
  match prec with
  | .CTF_PREC_BASE =>
    { cd with
      nodes_base := cd.nodes_base ++ [nd]
      order_base := some (cd.order_base.getD cd.cd_ordp)
      cd_ordp := if cd.order_base.isSome then cd.cd_ordp else cd.cd_ordp + 1 }
  | .CTF_PREC_POINTER =>
    { cd with
      nodes_pointer := cd.nodes_pointer ++ [nd]
      order_pointer := some (cd.order_pointer.getD cd.cd_ordp)
      cd_ordp := if cd.order_pointer.isSome then cd.cd_ordp else cd.cd_ordp + 1 }
  | .CTF_PREC_ARRAY =>
    { cd with
      nodes_array := cd.nodes_array ++ [nd]
      order_array := some (cd.order_array.getD cd.cd_ordp)
      cd_ordp := if cd.order_array.isSome then cd.cd_ordp else cd.cd_ordp + 1 }
  | .CTF_PREC_FUNCTION =>
    { cd with
      nodes_function := cd.nodes_function ++ [nd]
      order_function := some (cd.order_function.getD cd.cd_ordp)
      cd_ordp := if cd.order_function.isSome then cd.cd_ordp else cd.cd_ordp + 1 }

/-- Modelled from the spec: `ctf_decl_push` walks the chain
    (pointer → array → function → base), pushing the referenced type first
    and then one node onto the stack of this type's precedence class. -/
def ctf_decl_push (cd : ctf_decl) : CType → ctf_decl
  | .base s => pushNode cd .CTF_PREC_BASE (.baseN s)
  | .pointer t => pushNode (ctf_decl_push cd t) .CTF_PREC_POINTER .ptrN
  | .array t n => pushNode (ctf_decl_push cd t) .CTF_PREC_ARRAY (.arrN n)
  | .function t => pushNode (ctf_decl_push cd t) .CTF_PREC_FUNCTION .funcN

/-- Parentheses are needed exactly when a pointer was pushed after
    (i.e. binds inside) an array or function suffix: its storage order
    exceeds theirs. -/
def needParens (cd : ctf_decl) : Bool :=
  (match cd.order_pointer, cd.order_array with
   | some p, some a => a < p
   | _, _ => false)
  || (match cd.order_pointer, cd.order_function with
      | some p, some f => f < p
      | _, _ => false)

/-- The base-type names of the declaration. -/
def renderBaseNodes (nds : List DeclNode) : String :=
  String.join (nds.map (fun nd => match nd with
    | .baseN s => s
    | _ => ""))

/-- Prefix operators, emitted outer-to-inner (the pointer stack holds the
    outermost pointer last, so it is reversed). -/
def renderPtrNodes (nds : List DeclNode) : String :=
  String.join (nds.reverse.map (fun _ => "*"))

/-- One decimal digit. -/
def decDigit (n : Nat) : String :=
  match n with
  | 0 => "0"
  | 1 => "1"
  | 2 => "2"
  | 3 => "3"
  | 4 => "4"
  | 5 => "5"
  | 6 => "6"
  | 7 => "7"
  | 8 => "8"
  | 9 => "9"
  | _ => ""

/-- Decimal rendering of a bound, by fuel so that it reduces inside the
    kernel. -/
def decStringAux : Nat → Nat → String
  | 0, _ => ""
  | fuel + 1, n =>
    if n < 10 then decDigit n
    else decStringAux fuel (n / 10) ++ decDigit (n % 10)

/-- Decimal rendering of an array bound. -/
def decString (n : Nat) : String :=
  decStringAux (n + 1) n

/-- Suffix operators, emitted inner-to-outer (stack push order). -/
def renderSuffixNodes (nds : List DeclNode) : String :=
  String.join (nds.map (fun nd => match nd with
    | .arrN n => "[" ++ decString n ++ "]"
    | .funcN => "()"
    | _ => ""))

/-- Modelled from the spec: the Declaration Renderer.  Push one node per
    precedence class, then emit the base type, the prefix operators, the
    identifier and the suffix operators, parenthesizing the
    pointer-plus-identifier group when the pointer binds inside a suffix
    operator. -/
def ctf_type_name (t : CType) (ident : String) : String :=
  let cd := ctf_decl_push ctf_decl_init t
  renderBaseNodes cd.nodes_base ++ " "
    ++ (if needParens cd then "(" else "")
    ++ renderPtrNodes cd.nodes_pointer ++ ident
    ++ (if needParens cd then ")" else "")
    ++ renderSuffixNodes (cd.nodes_array ++ cd.nodes_function)

/-- C7: declarator-precedence rendering.  Array-of-pointer-to-int renders
    as `int *arr[10]` and pointer-to-array-of-int as `int (*arr)[10]`; the
    precedence classes are ordered base < pointer < array < function, and
    each of the two chains pushes exactly one node per precedence level it
    uses. -/
theorem ctf_render_declarator_precedence :
    ctf_type_name (.array (.pointer (.base "int")) 10) "arr" = "int *arr[10]"
    ∧ ctf_type_name (.pointer (.array (.base "int") 10)) "arr" = "int (*arr)[10]"
    ∧ precLevel .CTF_PREC_BASE < precLevel .CTF_PREC_POINTER
    ∧ precLevel .CTF_PREC_POINTER < precLevel .CTF_PREC_ARRAY
    ∧ precLevel .CTF_PREC_ARRAY < precLevel .CTF_PREC_FUNCTION
    ∧ ((ctf_decl_push ctf_decl_init (.array (.pointer (.base "int")) 10)).nodes_base.length = 1
      ∧ (ctf_decl_push ctf_decl_init (.array (.pointer (.base "int")) 10)).nodes_pointer.length = 1
      ∧ (ctf_decl_push ctf_decl_init (.array (.pointer (.base "int")) 10)).nodes_array.length = 1
      ∧ (ctf_decl_push ctf_decl_init (.array (.pointer (.base "int")) 10)).nodes_function.length = 0)
    ∧ ((ctf_decl_push ctf_decl_init (.pointer (.array (.base "int") 10))).nodes_base.length = 1
      ∧ (ctf_decl_push ctf_decl_init (.pointer (.array (.base "int") 10))).nodes_pointer.length = 1
      ∧ (ctf_decl_push ctf_decl_init (.pointer (.array (.base "int") 10))).nodes_array.length = 1
      ∧ (ctf_decl_push ctf_decl_init (.pointer (.array (.base "int") 10))).nodes_function.length = 0) := by
  decide

/-- Modelled from the spec: the renderer output state — the output buffer
    `cd_buf` (a C null pointer modelled as `none`) and the out-of-memory
    flag `cd_enomem` of `ctf_decl_t`. -/
structure ctf_decl_out where
  cd_buf : Option String
  cd_enomem : Bool
deriving Repr, DecidableEq

/-- Output state after `ctf_decl_init`: an empty, non-null buffer. -/
def ctf_decl_out_init : ctf_decl_out :=
  { cd_buf := some "", cd_enomem := false }

/-- Modelled from the spec: one `ctf_decl_sprintf` append; `ok` says
    whether the output buffer could grow.  On failure the out-of-memory
    flag is set and the best-effort buffer is kept unchanged. -/
def ctf_decl_sprintf (cd : ctf_decl_out) (ok : Bool) (s : String) : ctf_decl_out :=
  if ok then { cd with cd_buf := some ((cd.cd_buf.getD "") ++ s) }
  else { cd with cd_enomem := true }

/-- Run a rendering: a list of appends, each with its allocation
    outcome. -/
def ctf_decl_run (steps : List (Bool × String)) : ctf_decl_out :=
  steps.foldl (fun cd st => ctf_decl_sprintf cd st.1 st.2) ctf_decl_out_init

/-- `ctf_decl_buf` returns the buffer pointer. -/
def ctf_decl_buf (cd : ctf_decl_out) : Option String :=
  cd.cd_buf

/-- C9: the renderer never returns a null buffer.  After any sequence of
    appends with any allocation outcomes, `ctf_decl_buf` is non-null
    (a best-effort partial string), and `cd_enomem` is set exactly when
    some append failed to grow the buffer. -/
theorem ctf_decl_buf_never_null (steps : List (Bool × String)) :
    (ctf_decl_buf (ctf_decl_run steps)).isSome = true
      ∧ (ctf_decl_run steps).cd_enomem = steps.any (fun st => !st.1) := by
  have hgen : ∀ (l : List (Bool × String)) (cd : ctf_decl_out),
      cd.cd_buf.isSome = true →
      ((l.foldl (fun cd st => ctf_decl_sprintf cd st.1 st.2) cd).cd_buf.isSome = true
        ∧ (l.foldl (fun cd st => ctf_decl_sprintf cd st.1 st.2) cd).cd_enomem
            = (cd.cd_enomem || l.any (fun st => !st.1))) := by
    intro l
    induction l with
    | nil =>
      intro cd h
      exact ⟨h, by simp⟩
    | cons st l ih =>
      intro cd h
      rw [List.foldl_cons]
      have hbuf : (ctf_decl_sprintf cd st.1 st.2).cd_buf.isSome = true := by
        cases hok : st.1 <;> simp [ctf_decl_sprintf, hok, h]
      obtain ⟨h1, h2⟩ := ih (ctf_decl_sprintf cd st.1 st.2) hbuf
      refine ⟨h1, ?_⟩
      rw [h2]
      cases hok : st.1 <;> simp [ctf_decl_sprintf, hok, Bool.or_assoc]
  have h := hgen steps ctf_decl_out_init rfl
  exact ⟨h.1, by simpa [ctf_decl_run, ctf_decl_out_init] using h.2⟩

end Ctf
